import Mathlib

/-!
Shallow embedding of the tdd-agent repository's core step-orchestration and
edit-validation engine.

Rust strings are modelled as `List Char`; machine integers that can only hold
small counters (`u32` attempt counts, step indices) are modelled as `Nat`;
process exit codes (`i32`) as `Int`.  Fallible Rust functions returning
`Result` are modelled with `Except`.  External collaborators (the serde JSON
decoder, the LLM backend, the git backend, the process spawner and the
`ignore` crate directory walker) are modelled as explicit parameters or as
small structures capturing exactly the contract the core code relies on.
-/

deriving instance DecidableEq for Except

namespace TddAgent

/-- Rust `String` / `&str`, modelled as a list of characters. -/
abbrev Str := List Char

/-- Convert a Lean string literal to the embedding's string type. -/
def chars (s : String) : Str := s.toList

/-- The newline character. -/
def nlChar : Char := Char.ofNat 10

/-- The carriage-return character. -/
def crChar : Char := Char.ofNat 13

/-- The backtick character used by markdown code fences. -/
def btChar : Char := Char.ofNat 96

/-- Three backticks: the markdown fence delimiter. -/
def fenceMark : Str := [btChar, btChar, btChar]

/-- Rust `char::is_whitespace`, restricted to the whitespace notion Lean
provides; agreement on ASCII whitespace is all the code relies on. -/
def isWs (c : Char) : Bool := c.isWhitespace

/-- Rust `str::trim_start`. -/
def trimStart (s : Str) : Str := s.dropWhile isWs

/-- Rust `str::trim_end`. -/
def trimEnd (s : Str) : Str := (s.reverse.dropWhile isWs).reverse

/-- Rust `str::trim`. -/
def trim (s : Str) : Str := trimEnd (trimStart s)

/-- Rust `str::starts_with` for string patterns. -/
def startsWith : Str → Str → Bool
  | [], _ => true
  | _ :: _, [] => false
  | p :: ps, b :: bs => p == b && startsWith ps bs

/-- Rust `str::ends_with` for string patterns. -/
def endsWith (p s : Str) : Bool := startsWith p.reverse s.reverse

/-- Rust `str::contains` for string patterns (substring search). -/
def containsSub (needle : Str) : Str → Bool
  | [] => startsWith needle []
  | b :: bs => startsWith needle (b :: bs) || containsSub needle bs

/-- Split a string at every occurrence of the separator character `c`
(the splitting underlying Rust `str::lines` and `Path::components`). -/
def splitOnChar (c : Char) : Str → List Str
  | [] => [[]]
  | a :: rest =>
    match splitOnChar c rest with
    | [] => [[]]
    | s :: ss => if a = c then [] :: s :: ss else (a :: s) :: ss

/-- Rust `[&str]::join` with a one-character separator. -/
def joinSep (c : Char) : List Str → Str
  | [] => []
  | [x] => x
  | x :: xs => x ++ c :: joinSep c xs

/-- Drop one trailing carriage return, as Rust `str::lines` does for lines
terminated by `\r\n`. -/
def stripCr (s : Str) : Str := if s.getLast? = some crChar then s.dropLast else s

/-- Strip a trailing `\r` from every element except the last (only parts that
were followed by a `\n` came from a `\r\n` ending). -/
def stripCrAllButLast : List Str → List Str
  | [] => []
  | [x] => [x]
  | x :: xs => stripCr x :: stripCrAllButLast xs

/-- Rust `str::lines`: split on `\n`, drop a final empty piece produced by a
trailing newline, and remove the `\r` of `\r\n` endings. -/
def rustLines (s : Str) : List Str :=
  if s = [] then []
  else
    let parts := splitOnChar nlChar s
    if parts.getLast? = some [] then (parts.dropLast).map stripCr
    else stripCrAllButLast parts

/-- Decimal digit character (for digits below ten). -/
def digitChar (n : Nat) : Char := Char.ofNat (48 + n)

/-- Fuel-driven decimal rendering of a natural number. -/
def natToStrAux : Nat → Nat → Str
  | 0, _ => []
  | fuel + 1, n => if n < 10 then [digitChar n] else natToStrAux fuel (n / 10) ++ [digitChar (n % 10)]

/-- Decimal rendering of a natural number. -/
def natToStr (n : Nat) : Str := natToStrAux (n + 1) n

/-- Decimal rendering of an integer (models Rust's `Display` for `i32`). -/
def intToStr (i : Int) : Str := if i < 0 then '-' :: natToStr i.natAbs else natToStr i.toNat

-- Basic lemmas about the string primitives.

theorem splitOnChar_ne_nil (c : Char) (s : Str) : splitOnChar c s ≠ [] := by
  induction s with
  | nil => simp [splitOnChar]
  | cons a rest ih =>
    simp only [splitOnChar]
    cases h : splitOnChar c rest with
    | nil => simp
    | cons x xs =>
      by_cases hac : a = c <;> simp [hac]

theorem splitOnChar_no_sep {c : Char} {s : Str} (h : c ∉ s) : splitOnChar c s = [s] := by
  induction s with
  | nil => rfl
  | cons a rest ih =>
    have hac : a ≠ c := fun he => h (he ▸ List.mem_cons_self a rest)
    have hrest : c ∉ rest := fun hm => h (List.mem_cons_of_mem a hm)
    simp only [splitOnChar, ih hrest]
    simp [hac]

theorem splitOnChar_append_sep (c : Char) (x y : Str) :
    splitOnChar c (x ++ c :: y) = splitOnChar c x ++ splitOnChar c y := by
  induction x with
  | nil =>
    obtain ⟨h, t, ht⟩ := List.exists_cons_of_ne_nil (splitOnChar_ne_nil c y)
    simp [splitOnChar, ht]
  | cons a x' ih =>
    obtain ⟨h, t, ht⟩ := List.exists_cons_of_ne_nil (splitOnChar_ne_nil c x')
    simp only [List.cons_append, splitOnChar, ht, List.append_eq]
    rw [ih, ht]
    by_cases hac : a = c <;> simp [hac]

theorem joinSep_splitOnChar (c : Char) (s : Str) : joinSep c (splitOnChar c s) = s := by
  induction s with
  | nil => rfl
  | cons a rest ih =>
    simp only [splitOnChar]
    obtain ⟨h, t, ht⟩ := List.exists_cons_of_ne_nil (splitOnChar_ne_nil c rest)
    rw [ht] at ih ⊢
    by_cases hac : a = c
    · subst hac
      simp only [if_pos rfl, joinSep]
      cases t <;> simp_all [joinSep]
    · simp only [if_neg hac]
      cases t <;> simp_all [joinSep]

theorem mem_of_mem_splitOnChar {c ch : Char} {s p : Str}
    (hp : p ∈ splitOnChar c s) (hc : ch ∈ p) : ch ∈ s := by
  induction s generalizing p with
  | nil =>
    simp only [splitOnChar, List.mem_singleton] at hp
    subst hp; exact absurd hc (List.not_mem_nil ch)
  | cons a rest ih =>
    obtain ⟨h, t, ht⟩ := List.exists_cons_of_ne_nil (splitOnChar_ne_nil c rest)
    simp only [splitOnChar, ht] at hp
    by_cases hac : a = c
    · rw [if_pos hac] at hp
      rcases List.mem_cons.mp hp with he | he
      · subst he; exact absurd hc (List.not_mem_nil ch)
      · exact List.mem_cons_of_mem a (ih (by rw [ht]; exact he) hc)
    · rw [if_neg hac] at hp
      rcases List.mem_cons.mp hp with he | he
      · subst he
        rcases List.mem_cons.mp hc with he2 | he2
        · exact he2 ▸ List.mem_cons_self _ _
        · exact List.mem_cons_of_mem a
            (ih (by rw [ht]; exact List.mem_cons_self h t) he2)
      · exact List.mem_cons_of_mem a
          (ih (by rw [ht]; exact List.mem_cons_of_mem h he) hc)

theorem mem_of_getLast?_eq {α : Type} {l : List α} {a : α}
    (h : l.getLast? = some a) : a ∈ l := by
  induction l with
  | nil => simp [List.getLast?] at h
  | cons x xs ih =>
    cases xs with
    | nil =>
      simp only [List.getLast?_singleton, Option.some.injEq] at h
      simp [h]
    | cons y ys =>
      rw [List.getLast?_cons_cons] at h
      exact List.mem_cons_of_mem x (ih h)

theorem stripCr_of_getLast_ne {s : Str} (h : s.getLast? ≠ some crChar) : stripCr s = s := by
  simp [stripCr, h]

theorem stripCr_of_not_mem {s : Str} (h : crChar ∉ s) : stripCr s = s := by
  apply stripCr_of_getLast_ne
  intro he
  exact h (mem_of_getLast?_eq he)

theorem stripCrAllButLast_append_last (l : List Str) (t : Str)
    (hl : ∀ p ∈ l, crChar ∉ p) : stripCrAllButLast (l ++ [t]) = l ++ [t] := by
  induction l with
  | nil => rfl
  | cons x xs ih =>
    have hx : crChar ∉ x := hl x (List.mem_cons_self x xs)
    have hxs : ∀ p ∈ xs, crChar ∉ p := fun p hp => hl p (List.mem_cons_of_mem x hp)
    obtain ⟨z, zs, hz⟩ := List.exists_cons_of_ne_nil (l := xs ++ [t]) (by simp)
    rw [List.cons_append, hz]
    show stripCr x :: stripCrAllButLast (z :: zs) = x :: (z :: zs)
    rw [← hz, ih hxs, stripCr_of_not_mem hx]

theorem trimStart_cons_of_not_ws {a : Char} (s : Str) (h : isWs a = false) :
    trimStart (a :: s) = a :: s := by
  simp [trimStart, List.dropWhile, h]

theorem trimEnd_append_of_not_ws (s : Str) {b : Char} (h : isWs b = false) :
    trimEnd (s ++ [b]) = s ++ [b] := by
  simp [trimEnd, List.reverse_append, List.dropWhile, h]

/-! ## Edit plan (crates/tdd-agents/src/edit_plan.rs) -/

/-- `RawFileEdit` (edit_plan.rs): one deserialized file entry. -/
structure RawFileEdit where
  path : Str
  contents : Str
deriving DecidableEq

/-- `RawEditPlan` (edit_plan.rs): the deserialized shape of the model output. -/
structure RawEditPlan where
  commit_message : Option Str
  notes : Option Str
  files : List RawFileEdit
deriving DecidableEq

/-- `FileEdit` (edit_plan.rs): a validated single file edit. -/
structure FileEdit where
  path : Str
  contents : Str
deriving DecidableEq

/-- `EditPlan` (edit_plan.rs): the validated plan. -/
structure EditPlan where
  commit_message : Str
  notes : Str
  files : List FileEdit
deriving DecidableEq

/-- `EditPlanError` (edit_plan.rs); the `Io` variant concerns `apply`'s disk
writes, which the pure model does not perform, so it has no inhabitant here. -/
inductive EditPlanError where
  | InvalidJson (msg : Str)
  | EmptyFiles
  | MissingCommitMessage
  | InvalidPath (path : Str)
  | DuplicatePath (path : Str)
deriving DecidableEq

/-- `str::replace('\\', "/")` as used by `normalize_path`, `is_test_path`
and `is_source_path`. -/
def normalizeSeparators (s : Str) : Str :=
  s.map (fun c => if c = '\\' then '/' else c)

/-- Unix `Path::is_absolute` on the already slash-normalized string. -/
def isAbsolutePath (s : Str) : Bool := startsWith (chars ("/")) s

/-- Whether any `/`-separated segment is the parent-directory marker `..`
(Rust `Component::ParentDir` over the slash-normalized string). -/
def hasParentSegment (s : Str) : Bool :=
  (splitOnChar '/' s).any (fun seg => seg == chars (".."))

/-- `normalize_path` (edit_plan.rs lines 160-177). -/
def normalize_path (input : Str) : Except EditPlanError Str :=
  let trimmed := trim input
  if trimmed = [] then .error (.InvalidPath input)
  else
    let normalized := normalizeSeparators trimmed
    let has_escape := isAbsolutePath normalized || hasParentSegment normalized
    if has_escape then .error (.InvalidPath normalized)
    else .ok normalized

/-- `sanitize_raw_plan` (edit_plan.rs lines 143-158). -/
def sanitize_raw_plan (raw : Str) : Str :=
  let trimmed := trim raw
  if startsWith fenceMark trimmed = false then trimmed
  else
    let lines := rustLines trimmed
    let lines := lines.drop 1
    let lines :=
      match lines.getLast? with
      | some last => if startsWith fenceMark (trimStart last) then lines.dropLast else lines
      | none => lines
    trim (joinSep nlChar lines)

/-- The per-file validation loop inside `EditPlan::parse`: normalize each
path, reject duplicates against the already-seen set, keep input order. -/
def processFiles : List RawFileEdit → List Str → Except EditPlanError (List FileEdit)
  | [], _ => .ok []
  | f :: rest, seen =>
    match normalize_path f.path with
    | .error e => .error e
    | .ok np =>
      if np ∈ seen then .error (.DuplicatePath np)
      else
        match processFiles rest (np :: seen) with
        | .error e => .error e
        | .ok fs => .ok ({ path := np, contents := f.contents } :: fs)

/-- `EditPlan::parse` (edit_plan.rs lines 40-77).  The external serde JSON
decoder is passed in as `jsonDecode`; everything after deserialization is
modelled concretely. -/
def EditPlan.parse (jsonDecode : Str → Except Str RawEditPlan) (raw : Str) :
    Except EditPlanError EditPlan :=
  let sanitized := sanitize_raw_plan raw
  match jsonDecode sanitized with
  | .error e => .error (.InvalidJson e)
  | .ok rawPlan =>
    let cm :=
      match rawPlan.commit_message with
      | none => none
      | some v => let t := trim v; if t = [] then none else some t
    match cm with
    | none => .error .MissingCommitMessage
    | some commitMsg =>
      if rawPlan.files = [] then .error .EmptyFiles
      else
        let notes := trim (rawPlan.notes.getD [])
        match processFiles rawPlan.files [] with
        | .error e => .error e
        | .ok files => .ok { commit_message := commitMsg, notes := notes, files := files }

/-- Unix `Path::join`: an absolute right-hand side replaces the root,
otherwise the two sides are joined with a separator. -/
def joinPath (root rel : Str) : Str :=
  if isAbsolutePath rel then rel else root ++ '/' :: rel

/-- `EditPlan::apply` (edit_plan.rs lines 79-97), modelled as the pure pair
of (absolute path, contents) writes it performs and the changed-path list it
returns. -/
def EditPlan.apply (root : Str) (plan : EditPlan) : List (Str × Str) × List Str :=
  (plan.files.map (fun f => (joinPath root f.path, f.contents)),
   plan.files.map (fun f => f.path))

/-! ## Path classification and scope policy (support.rs, implementor.rs,
refactorer.rs) -/

/-- `is_test_path` (support.rs lines 61-69). -/
def is_test_path (path : Str) : Bool :=
  let normalized := normalizeSeparators path
  startsWith (chars ("tests/")) normalized
    || containsSub (chars ("/tests/")) normalized
    || endsWith (chars ("_test.rs")) normalized
    || endsWith (chars ("_tests.rs")) normalized
    || endsWith (chars ("test.rs")) normalized
    || containsSub (chars ("/test/")) normalized

/-- `is_source_path` (support.rs lines 72-78). -/
def is_source_path (path : Str) : Bool :=
  let normalized := normalizeSeparators path
  startsWith (chars ("src/")) normalized
    || startsWith (chars ("examples/")) normalized
    || normalized == chars ("Cargo.toml")
    || (endsWith (chars (".rs")) normalized && !is_test_path normalized)

/-- `enforce_implementor_scope` (implementor.rs lines 76-90). -/
def enforce_implementor_scope (plan : EditPlan) : Except Str Unit :=
  let source_files := plan.files.countP (fun f => is_source_path f.path)
  if source_files = 0 then
    .error (chars ("Implementor must modify at least one source file"))
  else if plan.files.length > 5 then
    .error (chars ("Implementor plan is too large; limit edits to at most 5 files"))
  else .ok ()

-- Helper lemmas about `normalize_path` and the parse pipeline.

theorem normalize_path_rejects_escape (input : Str)
    (h : isAbsolutePath (normalizeSeparators (trim input)) = true ∨
         hasParentSegment (normalizeSeparators (trim input)) = true) :
    normalize_path input = .error (.InvalidPath (normalizeSeparators (trim input))) := by
  by_cases he : trim input = []
  · rw [he] at h
    exact absurd h (by decide)
  · have hor : (isAbsolutePath (normalizeSeparators (trim input))
        || hasParentSegment (normalizeSeparators (trim input))) = true := by
      rcases h with h | h <;> simp [h]
    simp only [normalize_path, if_neg he, hor, if_pos]

theorem normalize_path_accepts_clean (input : Str) (h0 : trim input ≠ [])
    (h1 : isAbsolutePath (normalizeSeparators (trim input)) = false)
    (h2 : hasParentSegment (normalizeSeparators (trim input)) = false) :
    normalize_path input = .ok (normalizeSeparators (trim input)) := by
  simp only [normalize_path, if_neg h0, h1, h2, Bool.or_false, Bool.false_or,
    if_neg (Bool.false_ne_true)]

theorem normalize_path_ok_clean {input np : Str} (h : normalize_path input = .ok np) :
    isAbsolutePath np = false ∧ hasParentSegment np = false := by
  simp only [normalize_path] at h
  split at h
  · exact absurd h (by simp)
  · split at h
    · exact absurd h (by simp)
    · rename_i hesc
      rw [Except.ok.injEq] at h
      subst h
      constructor
      · cases hab : isAbsolutePath (normalizeSeparators (trim input)) with
        | false => rfl
        | true => exact absurd (by simp [hab]) hesc
      · cases hab : hasParentSegment (normalizeSeparators (trim input)) with
        | false => rfl
        | true => exact absurd (by simp [hab]) hesc

theorem processFiles_paths_clean :
    ∀ (l : List RawFileEdit) (seen : List Str) (fs : List FileEdit),
      processFiles l seen = .ok fs →
      ∀ f ∈ fs, isAbsolutePath f.path = false ∧ hasParentSegment f.path = false := by
  intro l
  induction l with
  | nil =>
    intro seen fs h f hf
    simp only [processFiles, Except.ok.injEq] at h
    subst h
    exact absurd hf (List.not_mem_nil f)
  | cons x rest ih =>
    intro seen fs h f hf
    simp only [processFiles] at h
    split at h
    · exact absurd h (by simp)
    · rename_i np hnp
      split at h
      · exact absurd h (by simp)
      · split at h
        · exact absurd h (by simp)
        · rename_i fs' hfs'
          rw [Except.ok.injEq] at h
          subst h
          rcases List.mem_cons.mp hf with he | he
          · subst he
            exact normalize_path_ok_clean hnp
          · exact ih (np :: seen) fs' hfs' f he

theorem parse_ok_files_clean {jd : Str → Except Str RawEditPlan} {raw : Str} {plan : EditPlan}
    (h : EditPlan.parse jd raw = .ok plan) :
    ∀ f ∈ plan.files, isAbsolutePath f.path = false ∧ hasParentSegment f.path = false := by
  simp only [EditPlan.parse] at h
  split at h
  · exact absurd h (by simp)
  · split at h
    · exact absurd h (by simp)
    · split at h
      · exact absurd h (by simp)
      · split at h
        · exact absurd h (by simp)
        · rename_i fs hfs
          rw [Except.ok.injEq] at h
          subst h
          exact processFiles_paths_clean _ _ _ hfs

/-- C1: `EditPlan::parse` rejects, with an invalid-path error naming the
offending (slash-normalized) path, every file entry whose normalized path is
absolute or contains a parent-directory (`..`) segment; it accepts every
clean relative path such as `src/lib.x`; consequently every plan that parse
returns carries only clean relative paths, and `EditPlan::apply(root)` only
writes at `root`-joined locations of such clean paths — all path validation
happens in `parse`, before any write. -/
theorem C1_parse_validates_paths_before_apply :
    (∀ input : Str,
        isAbsolutePath (normalizeSeparators (trim input)) = true ∨
        hasParentSegment (normalizeSeparators (trim input)) = true →
        normalize_path input =
          .error (.InvalidPath (normalizeSeparators (trim input))))
  ∧ (∀ input : Str,
        trim input ≠ [] →
        isAbsolutePath (normalizeSeparators (trim input)) = false →
        hasParentSegment (normalizeSeparators (trim input)) = false →
        normalize_path input = .ok (normalizeSeparators (trim input)))
  ∧ normalize_path (chars ("src/lib.x")) = .ok (chars ("src/lib.x"))
  ∧ (∀ (jd : Str → Except Str RawEditPlan) (raw : Str) (plan : EditPlan) (root : Str),
        EditPlan.parse jd raw = .ok plan →
        ∀ w ∈ (EditPlan.apply root plan).1,
          ∃ f ∈ plan.files,
            w.1 = root ++ '/' :: f.path ∧
            isAbsolutePath f.path = false ∧ hasParentSegment f.path = false) := by
  refine ⟨normalize_path_rejects_escape, normalize_path_accepts_clean, by decide, ?_⟩
  intro jd raw plan root hparse w hw
  simp only [EditPlan.apply, List.mem_map] at hw
  obtain ⟨f, hf, hwf⟩ := hw
  obtain ⟨habs, hpar⟩ := parse_ok_files_clean hparse f hf
  refine ⟨f, hf, ?_, habs, hpar⟩
  rw [← hwf]
  simp [joinPath, habs]

/-- A concrete stand-in for the serde decoder, recognising one raw text. -/
def c1jd : Str → Except Str RawEditPlan := fun s =>
  if s = chars ("C1RAW") then
    .ok ⟨some (chars ("feat: add module")), some (chars ("covers hi")),
         [⟨chars ("src/lib.rs"), chars ("pub fn hi()")⟩]⟩
  else .error (chars ("invalid"))

/-- The plan `c1jd`'s raw text parses to. -/
def c1plan : EditPlan :=
  ⟨chars ("feat: add module"), chars ("covers hi"),
   [⟨chars ("src/lib.rs"), chars ("pub fn hi()")⟩]⟩

/-- Witness for C1 at concrete inputs: the traversal path `../secret.txt`
is rejected with an invalid-path error naming it, a trimmed backslash path
is accepted in normalized form, and a concretely parsed one-file plan is
applied only under the root. -/
theorem C1_parse_validates_paths_before_apply_witness :
    ((isAbsolutePath (normalizeSeparators (trim (chars ("../secret.txt")))) = true ∨
      hasParentSegment (normalizeSeparators (trim (chars ("../secret.txt")))) = true)
      ∧ normalize_path (chars ("../secret.txt")) =
          .error (.InvalidPath (normalizeSeparators (trim (chars ("../secret.txt"))))))
  ∧ (trim (chars (" a\\b.rs ")) ≠ [] ∧
      normalize_path (chars (" a\\b.rs ")) =
        .ok (normalizeSeparators (trim (chars (" a\\b.rs ")))))
  ∧ (EditPlan.parse c1jd (chars ("C1RAW")) = .ok c1plan ∧
      ∀ w ∈ (EditPlan.apply (chars ("/ws")) c1plan).1,
        ∃ f ∈ c1plan.files,
          w.1 = chars ("/ws") ++ '/' :: f.path ∧
          isAbsolutePath f.path = false ∧ hasParentSegment f.path = false) := by
  refine ⟨⟨by decide, ?_⟩, ⟨by decide, ?_⟩, ⟨by decide, ?_⟩⟩
  · exact C1_parse_validates_paths_before_apply.1 _ (by decide)
  · exact C1_parse_validates_paths_before_apply.2.1 _ (by decide) (by decide) (by decide)
  · exact C1_parse_validates_paths_before_apply.2.2.2 c1jd (chars ("C1RAW")) c1plan
      (chars ("/ws")) (by decide)

/-! ## C6: fenced model output -/

/-- Model text wrapped in a leading/trailing markdown code fence with a
language tag on the opening fence (the input shape C6 speaks about). -/
def fenceWrap (lang body : Str) : Str :=
  fenceMark ++ lang ++ nlChar :: (body ++ nlChar :: fenceMark)

theorem trim_cons_append_singleton {a b : Char} (s : Str)
    (ha : isWs a = false) (hb : isWs b = false) :
    trim (a :: (s ++ [b])) = a :: (s ++ [b]) := by
  unfold trim
  rw [trimStart_cons_of_not_ws _ ha]
  rw [show a :: (s ++ [b]) = (a :: s) ++ [b] from rfl]
  rw [trimEnd_append_of_not_ws _ hb]

theorem fenceWrap_shape (lang body : Str) :
    fenceWrap lang body =
      btChar :: ((btChar :: btChar :: lang ++ nlChar :: body ++
        [nlChar, btChar, btChar]) ++ [btChar]) := by
  simp [fenceWrap, fenceMark, List.append_assoc]

theorem fenceWrap_cons (lang body : Str) :
    fenceWrap lang body =
      btChar :: btChar :: btChar :: (lang ++ nlChar :: (body ++ nlChar :: fenceMark)) := by
  simp [fenceWrap, fenceMark]

theorem trim_fenceWrap (lang body : Str) :
    trim (fenceWrap lang body) = fenceWrap lang body := by
  rw [fenceWrap_shape]
  exact trim_cons_append_singleton _ (by decide) (by decide)

theorem startsWith_fenceMark_fenceWrap (lang body : Str) :
    startsWith fenceMark (fenceWrap lang body) = true := by
  rw [fenceWrap_cons]
  simp [fenceMark, startsWith]

theorem splitOnChar_fenceWrap (lang body : Str) (hnl : nlChar ∉ lang) :
    splitOnChar nlChar (fenceWrap lang body) =
      ((fenceMark ++ lang) :: splitOnChar nlChar body) ++ [fenceMark] := by
  have hx : nlChar ∉ fenceMark ++ lang := by
    intro hm
    rcases List.mem_append.mp hm with hm | hm
    · exact absurd hm (by decide)
    · exact hnl hm
  have hre : fenceWrap lang body =
      (fenceMark ++ lang) ++ nlChar :: (body ++ nlChar :: fenceMark) := by
    simp [fenceWrap, List.append_assoc]
  rw [hre, splitOnChar_append_sep, splitOnChar_append_sep,
    splitOnChar_no_sep hx, splitOnChar_no_sep (by decide : nlChar ∉ fenceMark)]
  simp

theorem rustLines_fenceWrap (lang body : Str) (hnl : nlChar ∉ lang)
    (hcrl : crChar ∉ lang) (hcrb : crChar ∉ body) :
    rustLines (fenceWrap lang body) =
      ((fenceMark ++ lang) :: splitOnChar nlChar body) ++ [fenceMark] := by
  have hne : fenceWrap lang body ≠ [] := by rw [fenceWrap_cons]; simp
  have hcr_parts : ∀ p ∈ (fenceMark ++ lang) :: splitOnChar nlChar body, crChar ∉ p := by
    intro p hp
    rcases List.mem_cons.mp hp with he | he
    · subst he
      intro hm
      rcases List.mem_append.mp hm with hm | hm
      · exact absurd hm (by decide)
      · exact hcrl hm
    · intro hm
      exact hcrb (mem_of_mem_splitOnChar he hm)
  simp only [rustLines, if_neg hne, splitOnChar_fenceWrap lang body hnl,
    List.getLast?_concat]
  rw [if_neg (by decide : ¬ (some fenceMark = some ([] : Str)))]
  exact stripCrAllButLast_append_last _ _ hcr_parts

theorem sanitize_fenceWrap (lang body : Str) (hnl : nlChar ∉ lang)
    (hcrl : crChar ∉ lang) (hcrb : crChar ∉ body) :
    sanitize_raw_plan (fenceWrap lang body) = trim body := by
  simp only [sanitize_raw_plan, trim_fenceWrap, startsWith_fenceMark_fenceWrap]
  rw [if_neg (by decide : ¬ (true = false))]
  rw [rustLines_fenceWrap lang body hnl hcrl hcrb]
  simp only [List.cons_append, List.drop_succ_cons, List.drop_zero,
    List.getLast?_concat]
  rw [if_pos (by decide : startsWith fenceMark (trimStart fenceMark) = true)]
  rw [List.dropLast_concat, joinSep_splitOnChar]

theorem sanitize_unfenced {body : Str}
    (h : startsWith fenceMark (trim body) = false) :
    sanitize_raw_plan body = trim body := by
  simp only [sanitize_raw_plan, h, if_pos]

/-- C6: for model text wrapped in a leading/trailing fenced code block (with
an arbitrary newline-free language tag on the opening fence, no carriage
returns, and a body that does not itself open with a fence), `EditPlan::parse`
strips exactly the fence delimiters and language tag and yields the same
result as parsing the unfenced body directly, whatever the JSON decoder
returns. -/
theorem C6_fenced_block_parse_equivalence :
    ∀ (jd : Str → Except Str RawEditPlan) (lang body : Str),
      nlChar ∉ lang → crChar ∉ lang → crChar ∉ body →
      startsWith fenceMark (trim body) = false →
      sanitize_raw_plan (fenceWrap lang body) = sanitize_raw_plan body ∧
      EditPlan.parse jd (fenceWrap lang body) = EditPlan.parse jd body := by
  intro jd lang body h1 h2 h3 h4
  have hs : sanitize_raw_plan (fenceWrap lang body) = sanitize_raw_plan body := by
    rw [sanitize_fenceWrap lang body h1 h2 h3, sanitize_unfenced h4]
  exact ⟨hs, by simp only [EditPlan.parse, hs]⟩

/-- A concrete decoder used by the C6 witness. -/
def c6jd : Str → Except Str RawEditPlan := fun s =>
  if s = chars ("C6BODY") then
    .ok ⟨some (chars ("refactor: tidy")), none, [⟨chars ("src/lib.rs"), chars ("pub fn hi()")⟩]⟩
  else .error (chars ("invalid"))

/-- Witness for C6: a concrete fenced text with language tag `json` parses
to exactly the same (successful) plan as its unfenced body. -/
theorem C6_fenced_block_parse_equivalence_witness :
    (nlChar ∉ chars ("json") ∧ crChar ∉ chars ("json") ∧
      crChar ∉ chars (" C6BODY ") ∧
      startsWith fenceMark (trim (chars (" C6BODY "))) = false)
  ∧ EditPlan.parse c6jd (fenceWrap (chars ("json")) (chars (" C6BODY "))) =
      EditPlan.parse c6jd (chars (" C6BODY "))
  ∧ EditPlan.parse c6jd (chars (" C6BODY ")) =
      .ok ⟨chars ("refactor: tidy"), [], [⟨chars ("src/lib.rs"), chars ("pub fn hi()")⟩]⟩ := by
  refine ⟨by decide, ?_, by decide⟩
  exact (C6_fenced_block_parse_equivalence c6jd (chars ("json")) (chars (" C6BODY "))
    (by decide) (by decide) (by decide) (by decide)).2

/-! ## C7: implementor scope policy -/

/-- A plan whose only file is the test-named `src/foo_test.rs`. -/
def c7planTestOnly : EditPlan :=
  ⟨chars ("feat: tweak"), [], [⟨chars ("src/foo_test.rs"), chars ("x")⟩]⟩

/-- A six-file plan of production sources (mirrors the repo's own test). -/
def c7planSix : EditPlan :=
  ⟨chars ("feat: huge"), [],
   [⟨chars ("src/a.rs"), []⟩, ⟨chars ("src/b.rs"), []⟩, ⟨chars ("src/c.rs"), []⟩,
    ⟨chars ("src/d.rs"), []⟩, ⟨chars ("src/e.rs"), []⟩, ⟨chars ("src/f.rs"), []⟩]⟩

/-- C7 counterexample: a plan whose every edited path is a test path
(`src/foo_test.rs` ends in `_test.rs`) is nevertheless accepted by the
Implementor scope check, because `is_source_path` counts any path under
`src/` as source without excluding test-named files there — contradicting
the claim that acceptance requires a production-source path that is not a
test path (equivalently, that an all-test-paths plan is rejected). -/
theorem C7_scope_counterexample :
    c7planTestOnly.files.all (fun f => is_test_path f.path) = true
  ∧ enforce_implementor_scope c7planTestOnly = .ok () := by decide

/-- C7 (amended): the Implementor scope check accepts exactly when at least
one edited path is classified source by `is_source_path` — which counts any
path under `src/` or `examples/` or the manifest even when it is also
test-named, and otherwise `.rs` files that are not test paths — and the plan
has at most 5 files; in particular a plan of 6 or more files is always
rejected. -/
theorem C7_implementor_scope_amended :
    (∀ plan : EditPlan,
       enforce_implementor_scope plan = .ok () ↔
         (plan.files.any (fun f => is_source_path f.path) = true ∧
          plan.files.length ≤ 5))
  ∧ (∀ plan : EditPlan, 6 ≤ plan.files.length →
       enforce_implementor_scope plan ≠ .ok ()) := by
  have main : ∀ plan : EditPlan,
      enforce_implementor_scope plan = .ok () ↔
        (plan.files.any (fun f => is_source_path f.path) = true ∧
         plan.files.length ≤ 5) := by
    intro plan
    constructor
    · intro h
      simp only [enforce_implementor_scope] at h
      split at h
      · exact absurd h (by simp)
      · split at h
        · exact absurd h (by simp)
        · rename_i hcnt hlen
          refine ⟨?_, by omega⟩
          rcases List.countP_pos_iff.mp (by omega :
            0 < plan.files.countP (fun f => is_source_path f.path)) with ⟨f, hf, hsrc⟩
          exact List.any_eq_true.mpr ⟨f, hf, hsrc⟩
    · rintro ⟨hany, hlen⟩
      obtain ⟨f, hf, hsrc⟩ := List.any_eq_true.mp hany
      have hcnt : plan.files.countP (fun f => is_source_path f.path) ≠ 0 := by
        intro h0
        exact absurd hsrc (by simpa using List.countP_eq_zero.mp h0 f hf)
      simp only [enforce_implementor_scope, if_neg hcnt,
        if_neg (by omega : ¬ plan.files.length > 5)]
  refine ⟨main, fun plan h6 hok => ?_⟩
  have := (main plan).mp hok
  omega

/-- Witness for C7 (amended) at a concrete six-file plan, which is rejected
regardless of content. -/
theorem C7_implementor_scope_amended_witness :
    6 ≤ c7planSix.files.length ∧ enforce_implementor_scope c7planSix ≠ .ok () :=
  ⟨by decide, C7_implementor_scope_amended.2 c7planSix (by decide)⟩

/-! ## Roles and the role cycle (tdd-core/src/step.rs, orchestrator.rs) -/

/-- `Role` (step.rs). -/
inductive Role where
  | Tester
  | Implementor
  | Refactorer
deriving DecidableEq

/-- `Role::next` (step.rs lines 34-40): the fixed rotation. -/
def Role.next : Role → Role
  | .Tester => .Implementor
  | .Implementor => .Refactorer
  | .Refactorer => .Tester

/-- `RoleCycle` (orchestrator.rs). -/
structure RoleCycle where
  current : Role
deriving DecidableEq

/-- `RoleCycle::new`. -/
def RoleCycle.new (initial : Role) : RoleCycle := ⟨initial⟩

/-- `RoleCycle::from_history` (orchestrator.rs lines 275-285). -/
def RoleCycle.from_history (last_role : Option Role) (repo_is_empty : Bool) : RoleCycle :=
  if repo_is_empty then RoleCycle.new Role.Tester
  else
    match last_role with
    | some role => RoleCycle.new role.next
    | none => RoleCycle.new Role.Tester

/-- `RoleCycle::advance` (orchestrator.rs lines 293-296), with the mutation
made explicit by state passing; the first component is the returned (new)
current role. -/
def RoleCycle.advance (c : RoleCycle) : Role × RoleCycle :=
  let n := c.current.next
  (n, ⟨n⟩)

/-- `DefaultOrchestrator::max_attempts_for` (orchestrator.rs lines 165-171);
the `Nat` argument is the configured `workspace.max_attempts_per_agent`. -/
def max_attempts_for (max_attempts_per_agent : Nat) (role : Role) : Nat :=
  if role = Role.Tester then 1 else Nat.max max_attempts_per_agent 1

/-- C4: for every configured `max_attempts_per_agent`, the per-role attempt
ceiling is exactly 1 for Tester and exactly `max(configured, 1)` for
Implementor and Refactorer. -/
theorem C4_per_role_attempt_ceiling :
    ∀ max_attempts_per_agent : Nat,
      max_attempts_for max_attempts_per_agent Role.Tester = 1
      ∧ max_attempts_for max_attempts_per_agent Role.Implementor
          = Nat.max max_attempts_per_agent 1
      ∧ max_attempts_for max_attempts_per_agent Role.Refactorer
          = Nat.max max_attempts_per_agent 1 :=
  fun _ => ⟨rfl, rfl, rfl⟩

/-- C5: `from_history(None, true)` starts at Tester; `from_history(Some
Tester, false)` starts at Implementor; an empty workspace always starts at
Tester whatever the recorded last role; and advancing three times from
Tester returns to Tester. -/
theorem C5_role_cycle_rules :
    RoleCycle.from_history none true = RoleCycle.new Role.Tester
  ∧ RoleCycle.from_history (some Role.Tester) false = RoleCycle.new Role.Implementor
  ∧ (∀ r : Role, RoleCycle.from_history (some r) true = RoleCycle.new Role.Tester)
  ∧ ((RoleCycle.new Role.Tester).advance.2.advance.2.advance.1 = Role.Tester
      ∧ ((RoleCycle.new Role.Tester).advance.2.advance.2.advance.2).current = Role.Tester) := by
  refine ⟨rfl, rfl, fun r => ?_, by decide⟩
  cases r <;> rfl

/-! ## Verification runner and gate (tdd-exec/src/runner.rs,
orchestrator.rs `run_ci_checks`) -/

/-- `RunOutcome` (runner.rs): exit code and captured output of one command. -/
structure RunOutcome where
  code : Int
  stdout : Str
  stderr : Str
deriving DecidableEq

/-- `RunnerError` (runner.rs); `SpawnFailed`'s io source is dropped. -/
inductive RunnerError where
  | InvalidCommand (msg : Str)
  | SpawnFailed (program : Str)
  | CommandFailed (program : Str) (code : Int) (stderr : Str)
deriving DecidableEq

/-- The observable result of spawning one process (`std::process::Output`). -/
structure ProcessOutput where
  success : Bool
  code : Int
  stdout : Str
  stderr : Str
deriving DecidableEq

/-- `CommandRunner::run_command` (runner.rs lines 37-62) after a successful
spawn: a non-success exit status becomes `CommandFailed` carrying the code
and stderr. -/
def run_command (program : Str) (output : ProcessOutput) : Except RunnerError RunOutcome :=
  let outcome : RunOutcome := ⟨output.code, output.stdout, output.stderr⟩
  if output.success then .ok outcome
  else .error (.CommandFailed program outcome.code outcome.stderr)

/-- The three verification-gate stages. -/
inductive Stage where
  | fmt
  | check
  | test
deriving DecidableEq

/-- `RunnerOutcomeSummary` (commit_policy.rs lines 73-84). -/
structure RunnerOutcomeSummary where
  fmt : RunOutcome
  check : RunOutcome
  test : RunOutcome
deriving DecidableEq

/-- `DefaultOrchestrator::run_ci_checks` (orchestrator.rs lines 184-190):
`let fmt = self.runner.fmt()?;` then check, then test — each `?` returns
early.  The first component of the result records which stages were actually
invoked, in order. -/
def run_ci_checks (runner : Stage → Except RunnerError RunOutcome) :
    List Stage × Except RunnerError RunnerOutcomeSummary :=
  match runner .fmt with
  | .error e => ([.fmt], .error e)
  | .ok fmtOutcome =>
    match runner .check with
    | .error e => ([.fmt, .check], .error e)
    | .ok checkOutcome =>
      match runner .test with
      | .error e => ([.fmt, .check, .test], .error e)
      | .ok testOutcome =>
        ([.fmt, .check, .test], .ok ⟨fmtOutcome, checkOutcome, testOutcome⟩)

/-- A runner whose format command exits non-zero and whose other commands
would succeed. -/
def c3FailingFmtRunner : Stage → Except RunnerError RunOutcome := fun s =>
  match s with
  | .fmt => run_command (chars ("cargo")) ⟨false, 1, chars ("diff"), chars ("rustfmt failed")⟩
  | .check => run_command (chars ("cargo")) ⟨true, 0, chars ("check ok"), []⟩
  | .test => run_command (chars ("cargo")) ⟨true, 0, chars ("test ok"), []⟩

/-- A runner whose three commands all succeed. -/
def c3OkRunner : Stage → Except RunnerError RunOutcome := fun s =>
  match s with
  | .fmt => .ok ⟨0, chars ("fmt ok"), []⟩
  | .check => .ok ⟨0, chars ("check ok"), []⟩
  | .test => .ok ⟨0, chars ("tests ok"), []⟩

/-- C3 counterexample: with a failing format command the gate invokes only
the format stage — the lint/check and test commands are never executed and
no outcomes are captured — refuting the claim that all three commands run
and all three outcomes are captured even when one fails. -/
theorem C3_gate_counterexample :
    (run_ci_checks c3FailingFmtRunner).1 = [Stage.fmt]
  ∧ ¬ (run_ci_checks c3FailingFmtRunner).1 = [Stage.fmt, Stage.check, Stage.test]
  ∧ (run_ci_checks c3FailingFmtRunner).2 =
      .error (.CommandFailed (chars ("cargo")) 1 (chars ("rustfmt failed"))) := by
  decide

/-- C3 (amended): the gate runs format, then lint/check, then test,
short-circuiting at the first failing command; all three outcomes are
captured (for the commit message) only when all three succeed, and a failure
of any one command — a non-success exit status, turned into `CommandFailed`
by `run_command` — makes the whole gate fail with that error. -/
theorem C3_gate_short_circuits :
    (∀ runner o1 o2 o3,
        runner Stage.fmt = .ok o1 → runner Stage.check = .ok o2 →
        runner Stage.test = .ok o3 →
        run_ci_checks runner = ([Stage.fmt, Stage.check, Stage.test], .ok ⟨o1, o2, o3⟩))
  ∧ (∀ runner e, runner Stage.fmt = .error e →
        run_ci_checks runner = ([Stage.fmt], .error e))
  ∧ (∀ runner o1 e, runner Stage.fmt = .ok o1 → runner Stage.check = .error e →
        run_ci_checks runner = ([Stage.fmt, Stage.check], .error e))
  ∧ (∀ runner o1 o2 e, runner Stage.fmt = .ok o1 → runner Stage.check = .ok o2 →
        runner Stage.test = .error e →
        run_ci_checks runner = ([Stage.fmt, Stage.check, Stage.test], .error e))
  ∧ (∀ program output, output.success = false →
        run_command program output =
          .error (.CommandFailed program output.code output.stderr)) := by
  refine ⟨?_, ?_, ?_, ?_, ?_⟩ <;> intros <;> simp_all [run_ci_checks, run_command]

/-- Witness for C3 (amended): the all-success runner executes all three
stages in order and captures all three outcomes. -/
theorem C3_gate_short_circuits_witness :
    c3OkRunner Stage.fmt = .ok ⟨0, chars ("fmt ok"), []⟩
  ∧ run_ci_checks c3OkRunner = ([Stage.fmt, Stage.check, Stage.test],
      .ok ⟨⟨0, chars ("fmt ok"), []⟩, ⟨0, chars ("check ok"), []⟩,
           ⟨0, chars ("tests ok"), []⟩⟩) :=
  ⟨by decide, C3_gate_short_circuits.1 c3OkRunner _ _ _ (by decide) (by decide) (by decide)⟩

/-! ## Commit policy (tdd-core/src/commit_policy.rs) -/

/-- `Role::as_str` (step.rs lines 25-31). -/
def Role.as_str : Role → Str
  | .Tester => chars ("tester")
  | .Implementor => chars ("implementor")
  | .Refactorer => chars ("refactorer")

/-- `CommitMessageInputs` (commit_policy.rs lines 61-70); the plan path is
its displayed string. -/
structure CommitMessageInputs where
  role : Role
  step_index : Nat
  kata_description : Str
  agent_commit_message : Str
  notes : Str
  files_changed : List Str
  plan_path : Str
  runner_outcomes : RunnerOutcomeSummary

/-- `split_message` (commit_policy.rs lines 86-101). -/
def split_message (message : Str) : Str × Option Str :=
  let lines := rustLines message
  let summary := trim (lines.headD (chars ("chore: update")))
  let rest := lines.drop 1
  let body :=
    if rest = [] then none
    else
      let joined := joinSep nlChar rest
      if trim joined = [] then none else some joined
  (summary, body)

/-- `extract_kata_goal` (commit_policy.rs lines 103-109). -/
def extract_kata_goal (description : Str) : Str :=
  (((rustLines description).map trim).find? (fun l => !l.isEmpty)).getD
    (chars ("See kata.md for details"))

/-- One line of `format_verification` (commit_policy.rs lines 118-124): the
label, the exit code, and — when the trimmed stdout is non-empty — that
whole trimmed stdout in parentheses. -/
def verificationLine (label : Str) (outcome : RunOutcome) : Str :=
  let log :=
    if trim outcome.stdout = [] then []
    else chars (" (") ++ trim outcome.stdout ++ chars (")")
  chars ("- ") ++ label ++ chars (": exit ") ++ intToStr outcome.code ++ log

/-- `format_verification` (commit_policy.rs lines 111-128). -/
def format_verification (summary : RunnerOutcomeSummary) : Str :=
  joinSep nlChar
    ([(chars ("fmt"), summary.fmt), (chars ("check"), summary.check),
      (chars ("test"), summary.test)].map (fun p => verificationLine p.1 p.2))

/-- The `format!` template of `CommitPolicy::format` (commit_policy.rs
lines 47-56). -/
def commitTemplate (message roleStr stepStr kataGoal planRef rationale diffSummary verification : Str) : Str :=
  message ++ chars ("\n\nContext:\n- Role: ") ++ roleStr
    ++ chars ("\n- Step: ") ++ stepStr
    ++ chars ("\n- Kata goal: ") ++ kataGoal
    ++ chars ("\n- Plan: ") ++ planRef
    ++ chars ("\n\nRationale:\n") ++ rationale
    ++ chars ("\n\nDiff summary:\n") ++ diffSummary
    ++ chars ("\n\nVerification:\n") ++ verification
    ++ chars ("\n")

/-- `CommitPolicy::format` (commit_policy.rs lines 13-57). -/
def CommitPolicy.format (input : CommitMessageInputs) : Str :=
  let sm := split_message input.agent_commit_message
  let summary := sm.1
  let body := sm.2
  let kata_goal := extract_kata_goal input.kata_description
  let rationale :=
    if trim input.notes = [] then chars ("- Agent did not provide additional notes.")
    else joinSep nlChar ((rustLines input.notes).map (fun line => chars ("- ") ++ trim line))
  let diff_summary :=
    if input.files_changed = [] then chars ("- No files reported")
    else joinSep nlChar (input.files_changed.map (fun file => chars ("- ") ++ file))
  let verification := format_verification input.runner_outcomes
  let message :=
    match body with
    | some b => if trim b = [] then summary else summary ++ nlChar :: trim b
    | none => summary
  commitTemplate message input.role.as_str (natToStr input.step_index) kata_goal
    input.plan_path rationale diff_summary verification

-- Digit lemmas for the decimal rendering.

theorem digitChar_ne_nl {d : Nat} (h : d < 10) : digitChar d ≠ nlChar := by
  interval_cases d <;> decide

theorem nl_not_mem_natToStrAux : ∀ fuel n, nlChar ∉ natToStrAux fuel n := by
  intro fuel
  induction fuel with
  | zero => intro n; simp [natToStrAux]
  | succ f ih =>
    intro n
    simp only [natToStrAux]
    split
    · rename_i h
      simp only [List.mem_singleton]
      exact fun he => digitChar_ne_nl h he.symm
    · intro hm
      rcases List.mem_append.mp hm with hm | hm
      · exact ih (n / 10) hm
      · rw [List.mem_singleton] at hm
        exact digitChar_ne_nl (Nat.mod_lt n (by omega)) hm.symm

theorem nl_not_mem_intToStr (i : Int) : nlChar ∉ intToStr i := by
  unfold intToStr natToStr
  split
  · intro hm
    rcases List.mem_cons.mp hm with hm | hm
    · exact absurd hm (by decide)
    · exact nl_not_mem_natToStrAux _ _ hm
  · exact nl_not_mem_natToStrAux _ _

theorem startsWith_append_self : ∀ p r : Str, startsWith p (p ++ r) = true := by
  intro p
  induction p with
  | nil => intro r; rfl
  | cons a ps ih => intro r; simp [startsWith, ih]

theorem containsSub_append_self (t y : Str) : containsSub t (t ++ y) = true := by
  have hs : startsWith t (t ++ y) = true := startsWith_append_self t y
  cases hty : t ++ y with
  | nil => simp_all [containsSub]
  | cons b bs => simp_all [containsSub]

theorem containsSub_of_append (t x y : Str) : containsSub t (x ++ (t ++ y)) = true := by
  induction x with
  | nil => simpa using containsSub_append_self t y
  | cons a xs ih => simp [containsSub, ih]

theorem nl_not_mem_verificationLine {label : Str} {o : RunOutcome}
    (hl : nlChar ∉ label) (hs : nlChar ∉ trim o.stdout) :
    nlChar ∉ verificationLine label o := by
  intro hm
  unfold verificationLine at hm
  by_cases he : trim o.stdout = []
  · simp only [he, if_pos, List.append_nil, List.mem_append] at hm
    rcases hm with ((hm | hm) | hm) | hm
    · exact absurd hm (by decide)
    · exact hl hm
    · exact absurd hm (by decide)
    · exact nl_not_mem_intToStr _ hm
  · simp only [if_neg he, List.mem_append] at hm
    rcases hm with (((hm | hm) | hm) | hm) | (hm | hm) | hm
    · exact absurd hm (by decide)
    · exact hl hm
    · exact absurd hm (by decide)
    · exact nl_not_mem_intToStr _ hm
    · exact absurd hm (by decide)
    · exact hs hm
    · exact absurd hm (by decide)

theorem commitTemplate_verification_tail (m r s k p ra d v : Str) :
    ∃ pre, commitTemplate m r s k p ra d v =
      pre ++ chars ("Verification:\n") ++ v ++ [nlChar] := by
  refine ⟨m ++ chars ("\n\nContext:\n- Role: ") ++ r ++ chars ("\n- Step: ") ++ s
    ++ chars ("\n- Kata goal: ") ++ k ++ chars ("\n- Plan: ") ++ p
    ++ chars ("\n\nRationale:\n") ++ ra ++ chars ("\n\nDiff summary:\n") ++ d
    ++ chars ("\n\n"), ?_⟩
  have h1 : chars ("\n\nVerification:\n") = chars ("\n\n") ++ chars ("Verification:\n") := by
    decide
  have h2 : chars ("\n") = [nlChar] := by decide
  simp only [commitTemplate, h1, h2, List.append_assoc]

/-- C8 counterexample: the Verification block applies no truncation — its
length is unbounded in the captured stdout, so no truncation limit `K`
exists; the full trimmed stdout is always embedded.  This refutes the
claim's "truncated preview of that stdout". -/
theorem C8_truncation_counterexample :
    ¬ ∃ K : Nat, ∀ s : RunnerOutcomeSummary, (format_verification s).length ≤ K := by
  rintro ⟨K, hK⟩
  set sd : Str := List.replicate (K + 1) 'a' with hsd
  have h1 : trimStart sd = sd := by
    rw [hsd, List.replicate_succ]
    exact trimStart_cons_of_not_ws _ (by decide)
  have h2 : trimEnd sd = sd := by
    rw [hsd, List.replicate_succ']
    exact trimEnd_append_of_not_ws _ (by decide)
  have htr : trim sd = sd := by unfold trim; rw [h1, h2]
  have hne : trim sd ≠ [] := by rw [htr, hsd]; simp
  have hle := hK ⟨⟨0, sd, []⟩, ⟨0, [], []⟩, ⟨0, [], []⟩⟩
  have hlong : K + 1 ≤ (format_verification ⟨⟨0, sd, []⟩, ⟨0, [], []⟩, ⟨0, [], []⟩⟩).length := by
    simp only [format_verification, List.map_cons, List.map_nil, joinSep,
      verificationLine, htr, hne, if_neg hne]
    simp [List.length_append, hsd]
    omega
  omega

/-- C8 (amended): the Verification block has one entry per verification
command in the order fmt (format), check (lint), test — one physical line
each whenever the trimmed stdouts contain no newline — and each entry shows
the exit code and, when the trimmed captured stdout is non-empty, that whole
trimmed stdout in parentheses, untruncated; `CommitPolicy::format` embeds
this block under the `Verification:` header as the final section. -/
theorem C8_verification_block :
    (∀ s : RunnerOutcomeSummary,
        nlChar ∉ trim s.fmt.stdout → nlChar ∉ trim s.check.stdout →
        nlChar ∉ trim s.test.stdout →
        splitOnChar nlChar (format_verification s) =
          [verificationLine (chars ("fmt")) s.fmt,
           verificationLine (chars ("check")) s.check,
           verificationLine (chars ("test")) s.test])
  ∧ (∀ label o, trim o.stdout ≠ [] →
        containsSub (trim o.stdout) (verificationLine label o) = true)
  ∧ (∀ label o, trim o.stdout = [] →
        verificationLine label o =
          chars ("- ") ++ label ++ chars (": exit ") ++ intToStr o.code)
  ∧ (∀ input : CommitMessageInputs, ∃ pre,
        CommitPolicy.format input =
          pre ++ chars ("Verification:\n") ++ format_verification input.runner_outcomes
            ++ [nlChar]) := by
  refine ⟨?_, ?_, ?_, ?_⟩
  · intro s hf hc ht
    have e1 : format_verification s =
        verificationLine (chars ("fmt")) s.fmt ++ nlChar ::
          (verificationLine (chars ("check")) s.check ++ nlChar ::
            verificationLine (chars ("test")) s.test) := rfl
    rw [e1, splitOnChar_append_sep, splitOnChar_append_sep,
      splitOnChar_no_sep (nl_not_mem_verificationLine (by decide) hf),
      splitOnChar_no_sep (nl_not_mem_verificationLine (by decide) hc),
      splitOnChar_no_sep (nl_not_mem_verificationLine (by decide) ht)]
    rfl
  · intro label o hne
    unfold verificationLine
    rw [if_neg hne]
    have := containsSub_of_append (trim o.stdout)
      (chars ("- ") ++ label ++ chars (": exit ") ++ intToStr o.code ++ chars (" ("))
      (chars (")"))
    simpa [List.append_assoc] using this
  · intro label o he
    unfold verificationLine
    rw [if_pos he]
    simp
  · intro input
    exact commitTemplate_verification_tail _ _ _ _ _ _ _ _

/-- A concrete all-success summary for the C8 witness. -/
def c8summary : RunnerOutcomeSummary :=
  ⟨⟨0, chars ("fmt ok"), []⟩, ⟨0, chars ("check ok"), []⟩, ⟨0, chars ("tests ok"), []⟩⟩

/-- Witness for C8 at a concrete summary: three lines in order, and the
full trimmed stdout of the fmt command appears in its line. -/
theorem C8_verification_block_witness :
    (nlChar ∉ trim c8summary.fmt.stdout ∧ nlChar ∉ trim c8summary.check.stdout ∧
      nlChar ∉ trim c8summary.test.stdout ∧ trim c8summary.fmt.stdout ≠ [])
  ∧ splitOnChar nlChar (format_verification c8summary) =
      [verificationLine (chars ("fmt")) c8summary.fmt,
       verificationLine (chars ("check")) c8summary.check,
       verificationLine (chars ("test")) c8summary.test]
  ∧ containsSub (trim c8summary.fmt.stdout)
      (verificationLine (chars ("fmt")) c8summary.fmt) = true := by
  refine ⟨by decide, ?_, ?_⟩
  · exact C8_verification_block.1 c8summary (by decide) (by decide) (by decide)
  · exact C8_verification_block.2.1 (chars ("fmt")) c8summary.fmt (by decide)

/-! ## Workspace file listing (tdd-exec/src/fs.rs) -/

/-- One filesystem entry as seen by the `ignore` crate walker: its path,
whether it is a regular file, whether it is hidden (dot-prefixed), and
whether a gitignore/git-exclude rule matches it. -/
structure WorkspaceEntry where
  path : Str
  isFile : Bool
  hidden : Bool
  gitIgnored : Bool
deriving DecidableEq

/-- Filter switches of `ignore::WalkBuilder`, modelled from the crate's
documented contract: `hidden(yes)` enables skipping hidden entries (on by
default), `git_ignore(yes)` / `git_exclude(yes)` enable skipping entries
matched by ignore rules (collapsed into the one `gitIgnored` flag). -/
structure WalkConfig where
  hiddenFilter : Bool
  gitIgnore : Bool
  gitExclude : Bool

/-- The walker yields exactly the file entries not excluded by the enabled
filters. -/
def walkFiles (cfg : WalkConfig) (workspace : List WorkspaceEntry) : List WorkspaceEntry :=
  workspace.filter (fun e =>
    e.isFile && !(cfg.hiddenFilter && e.hidden)
      && !((cfg.gitIgnore || cfg.gitExclude) && e.gitIgnored))

/-- `list_workspace_files` (fs.rs lines 6-21): the code configures
`builder.hidden(false).git_ignore(true).git_exclude(true)` — `hidden(false)`
disables the hidden-file filter, although the function's own doc comment
says "List all non-hidden files". -/
def list_workspace_files (workspace : List WorkspaceEntry) : List WorkspaceEntry :=
  walkFiles ⟨false, true, true⟩ workspace

/-- A workspace holding a hidden non-ignored file and a normal source file. -/
def c9workspace : List WorkspaceEntry :=
  [⟨chars (".secret"), true, true, false⟩, ⟨chars ("src/lib.rs"), true, false, false⟩]

/-- C9 (code-bug evidence): the hidden, non-ignored file `.secret` appears
in the workspace listing, because `hidden(false)` disables the walker's
hidden-file filter — contradicting both the claim and the function's own
doc comment, which say hidden files are excluded by default.  (Ignored
paths are still excluded, and the listing later gets sorted and made
root-relative in `StepContextBuilder::build`.) -/
theorem C9_hidden_file_is_listed :
    (⟨chars (".secret"), true, true, false⟩ : WorkspaceEntry) ∈ list_workspace_files c9workspace
  ∧ (⟨chars (".secret"), true, true, false⟩ : WorkspaceEntry).hidden = true
  ∧ (⟨chars (".secret"), true, true, false⟩ : WorkspaceEntry).gitIgnored = false
  ∧ list_workspace_files c9workspace = c9workspace := by
  decide

/-! ## Orchestrator step machine (tdd-core/src/orchestrator.rs `next`) -/

/-- `StepResult` (step.rs lines 76-81). -/
structure StepResult where
  files_changed : List Str
  commit_message : Str
  notes : Str
deriving DecidableEq

/-- The error from an agent's `edit` call (an `anyhow::Error` in the code):
an LLM/backend failure, an edit-plan parse error, a scope-policy violation,
or a filesystem failure while applying the plan. -/
inductive AgentError where
  | llmFailed (msg : Str)
  | parseFailed (e : EditPlanError)
  | scopeViolation (msg : Str)
  | applyFailed (msg : Str)
deriving DecidableEq

/-- `ImplementorAgent::edit` (implementor.rs lines 50-62) after the LLM
returned `response`: parse the edit plan, enforce the implementor scope,
apply to the workspace rooted at `root`. -/
def implementor_edit (jsonDecode : Str → Except Str RawEditPlan) (root : Str)
    (response : Str) : Except AgentError StepResult :=
  match EditPlan.parse jsonDecode response with
  | .error e => .error (.parseFailed e)
  | .ok plan =>
    match enforce_implementor_scope plan with
    | .error msg => .error (.scopeViolation msg)
    | .ok _ =>
      .ok ⟨(EditPlan.apply root plan).2, plan.commit_message, plan.notes⟩

/-- Outcome of the attempt loop in `DefaultOrchestrator::next`
(orchestrator.rs lines 220-255); `attempt` counts edit invocations,
1-based. -/
inductive StepOutcome where
  | committed (result : StepResult) (summary : RunnerOutcomeSummary) (attempt : Nat)
  | editError (e : AgentError) (attempt : Nat)
  | gateError (e : RunnerError) (attempt : Nat)
  | stageError (e : Str) (attempt : Nat)
  | commitError (e : Str) (attempt : Nat)
deriving DecidableEq

/-- Result of one pass through the loop body: either terminal, or a gate
failure that will be retried. -/
inductive AttemptRes where
  | done (o : StepOutcome)
  | retry (e : RunnerError)

/-- One iteration of the loop body of `next` (orchestrator.rs lines
222-254): run the edit call — its error propagates out of the loop with
`?` — then the verification gate; on gate success stage and commit; on gate
failure the step is fatal when the role is Tester or the attempt count has
reached the ceiling, and retried otherwise. -/
def attemptOnce (tester : Bool) (maxAttempts : Nat)
    (edit : Nat → Except AgentError StepResult)
    (ci : Nat → Except RunnerError RunnerOutcomeSummary)
    (stage : Nat → Except Str Unit)
    (commit : Nat → Except Str Str) (attempt : Nat) : AttemptRes :=
  match edit attempt with
  | .error e => .done (.editError e attempt)
  | .ok stepResult =>
    match ci attempt with
    | .error e =>
      if tester || maxAttempts ≤ attempt then .done (.gateError e attempt)
      else .retry e
    | .ok summary =>
      match stage attempt with
      | .error e => .done (.stageError e attempt)
      | .ok _ =>
        match commit attempt with
        | .error e => .done (.commitError e attempt)
        | .ok _ => .done (.committed stepResult summary attempt)

/-- The attempt loop, fuel-indexed.  The fuel counts the retries still
possible; `next` starts it at the attempt ceiling, an upper bound because
every retry requires `attempt < maxAttempts`, so the fuel-exhausted fallback
is unreachable from `next`'s entry point. -/
def runAttempts (tester : Bool) (maxAttempts : Nat)
    (edit : Nat → Except AgentError StepResult)
    (ci : Nat → Except RunnerError RunnerOutcomeSummary)
    (stage : Nat → Except Str Unit)
    (commit : Nat → Except Str Str) : Nat → Nat → StepOutcome
  | 0, attempt =>
    match attemptOnce tester maxAttempts edit ci stage commit attempt with
    | .done o => o
    | .retry e => .gateError e attempt
  | fuel + 1, attempt =>
    match attemptOnce tester maxAttempts edit ci stage commit attempt with
    | .done o => o
    | .retry _ => runAttempts tester maxAttempts edit ci stage commit fuel (attempt + 1)

/-- `matches!(role, Role::Tester)` as used by `next`'s gate-failure rule. -/
def isTesterRole : Role → Bool
  | Role.Tester => true
  | _ => false

/-- Orchestrator-owned mutable state: the role cycle and the step index. -/
structure OrchState where
  cycle : RoleCycle
  step_index : Nat
deriving DecidableEq

/-- The error of a failed `next()` call, tagged by the failing phase. -/
inductive NextError where
  | ctxFailed (e : Str)
  | planFailed (e : Str)
  | persistFailed (e : Str)
  | stepFailed (o : StepOutcome)
deriving DecidableEq

/-- `DefaultOrchestrator::next` (orchestrator.rs lines 202-256), with state
passing made explicit: build the context, request and persist the plan
(each failure propagating with the state unchanged), run the attempt loop,
and only after a successful commit advance the cycle and step index.
External collaborators are oracles: `buildContext` for §4.2 context
assembly, `plan`/`persistPlan` for the plan phase, and per-attempt `edit`,
`ci`, `stage` and `commit` oracles. -/
def DefaultOrchestrator.next (st : OrchState) (max_attempts_per_agent : Nat)
    (buildContext : Role → Except Str Unit)
    (plan : Except Str Str)
    (persistPlan : Str → Except Str Unit)
    (edit : Nat → Except AgentError StepResult)
    (ci : Nat → Except RunnerError RunnerOutcomeSummary)
    (stage : Nat → Except Str Unit)
    (commit : Nat → Except Str Str) : Except NextError Unit × OrchState :=
  let role := st.cycle.current
  match buildContext role with
  | .error e => (.error (.ctxFailed e), st)
  | .ok _ =>
    match plan with
    | .error e => (.error (.planFailed e), st)
    | .ok planText =>
      match persistPlan planText with
      | .error e => (.error (.persistFailed e), st)
      | .ok _ =>
        let maxAttempts := max_attempts_for max_attempts_per_agent role
        let tester := isTesterRole role
        match runAttempts tester maxAttempts edit ci stage commit maxAttempts 1 with
        | .committed _ _ _ =>
          (.ok (), { cycle := (st.cycle.advance).2, step_index := st.step_index + 1 })
        | o => (.error (.stepFailed o), st)

theorem runAttempts_edit_error (tester : Bool) (maxAttempts : Nat)
    (edit : Nat → Except AgentError StepResult)
    (ci : Nat → Except RunnerError RunnerOutcomeSummary)
    (stage : Nat → Except Str Unit) (commit : Nat → Except Str Str)
    (fuel attempt : Nat) (e : AgentError) (h : edit attempt = .error e) :
    runAttempts tester maxAttempts edit ci stage commit fuel attempt =
      .editError e attempt := by
  cases fuel <;> simp [runAttempts, attemptOnce, h]

-- Concrete oracles for the C2 and C10 theorems.

/-- Decoder for the C2 scenario: `RESP1` decodes to a tests-only plan,
`RESP2` to a clean source plan. -/
def c2jd : Str → Except Str RawEditPlan := fun s =>
  if s = chars ("RESP1") then
    .ok ⟨some (chars ("test: cover")), none, [⟨chars ("tests/foo.rs"), chars ("t")⟩]⟩
  else if s = chars ("RESP2") then
    .ok ⟨some (chars ("feat: pass")), none, [⟨chars ("src/lib.rs"), chars ("s")⟩]⟩
  else .error (chars ("invalid"))

/-- An implementor edit oracle that produces a scope-violating plan on its
first attempt and a clean plan afterwards. -/
def c2edit : Nat → Except AgentError StepResult := fun attempt =>
  implementor_edit c2jd (chars ("/ws"))
    (if attempt = 1 then chars ("RESP1") else chars ("RESP2"))

/-- An implementor edit oracle that always produces the clean plan. -/
def c2editGood : Nat → Except AgentError StepResult := fun _ =>
  implementor_edit c2jd (chars ("/ws")) (chars ("RESP2"))

/-- An all-success gate summary. -/
def c2summary : RunnerOutcomeSummary := ⟨⟨0, [], []⟩, ⟨0, [], []⟩, ⟨0, [], []⟩⟩

/-- A gate oracle that always passes. -/
def c2ciOk : Nat → Except RunnerError RunnerOutcomeSummary := fun _ => .ok c2summary

/-- A gate oracle that fails on the first attempt only. -/
def c2ciFailOnce : Nat → Except RunnerError RunnerOutcomeSummary := fun attempt =>
  if attempt = 1 then
    .error (.CommandFailed (chars ("cargo")) 101 (chars ("test failed")))
  else .ok c2summary

/-- A staging oracle that always succeeds. -/
def c2stage : Nat → Except Str Unit := fun _ => .ok ()

/-- A commit oracle that always succeeds. -/
def c2commit : Nat → Except Str Str := fun _ => .ok (chars ("abc123"))

/-- C2 counterexample: with role Implementor (non-Tester) and ceiling 2, a
scope-policy violation on attempt 1 fails the step after exactly one edit
call — it is not retried — while, under the identical ceiling, a
verification-gate failure on attempt 1 is retried and the step commits on
attempt 2.  Parse/scope errors are therefore not treated like gate
failures, refuting the claim. -/
theorem C2_scope_error_not_retried_counterexample :
    runAttempts false 2 c2edit c2ciOk c2stage c2commit 2 1 =
      .editError (.scopeViolation
        (chars ("Implementor must modify at least one source file"))) 1
  ∧ runAttempts false 2 c2editGood c2ciFailOnce c2stage c2commit 2 1 =
      .committed ⟨[chars ("src/lib.rs")], chars ("feat: pass"), []⟩ c2summary 2 := by
  decide

/-- C2 (amended): an error out of the agent's edit call — which is how
edit-plan parse errors and scope-policy violations surface — fails the step
immediately on that attempt for every role and every attempt ceiling;
`next()` propagates it without consuming further attempts (only
verification-gate failures are subject to the retry rule). -/
theorem C2_edit_errors_fail_step_immediately :
    (∀ (tester : Bool) (maxAttempts : Nat)
        (edit : Nat → Except AgentError StepResult)
        (ci : Nat → Except RunnerError RunnerOutcomeSummary)
        (stage : Nat → Except Str Unit) (commit : Nat → Except Str Str)
        (fuel attempt : Nat) (e : AgentError),
        edit attempt = .error e →
        runAttempts tester maxAttempts edit ci stage commit fuel attempt =
          .editError e attempt)
  ∧ (∀ (st : OrchState) (cfg : Nat) (bctx : Role → Except Str Unit)
        (plan : Except Str Str) (persistPlan : Str → Except Str Unit)
        (edit : Nat → Except AgentError StepResult)
        (ci : Nat → Except RunnerError RunnerOutcomeSummary)
        (stage : Nat → Except Str Unit) (commit : Nat → Except Str Str)
        (pt : Str) (e : AgentError),
        bctx st.cycle.current = .ok () → plan = .ok pt → persistPlan pt = .ok () →
        edit 1 = .error e →
        DefaultOrchestrator.next st cfg bctx plan persistPlan edit ci stage commit =
          (.error (.stepFailed (.editError e 1)), st)) := by
  refine ⟨runAttempts_edit_error, ?_⟩
  intro st cfg bctx plan persistPlan edit ci stage commit pt e h1 h2 h3 h4
  simp only [DefaultOrchestrator.next, h1, h2, h3,
    runAttempts_edit_error _ _ edit ci stage commit _ 1 e h4]

/-- A state and oracles instantiating the C2 amended theorem. -/
def c2wst : OrchState := ⟨⟨Role.Refactorer⟩, 4⟩

/-- Context builder that always succeeds. -/
def c2wbctx : Role → Except Str Unit := fun _ => .ok ()

/-- A successful plan-phase result. -/
def c2wplan : Except Str Str := .ok (chars ("plan"))

/-- Plan persistence that always succeeds. -/
def c2wpersist : Str → Except Str Unit := fun _ => .ok ()

/-- An edit oracle that always fails with a parse error. -/
def c2wEdit : Nat → Except AgentError StepResult := fun _ =>
  .error (.parseFailed .EmptyFiles)

/-- Witness for C2 (amended): a parse error on the first edit attempt of a
Refactorer step with ceiling 3 fails the whole `next()` call at attempt 1,
leaving the state unchanged. -/
theorem C2_edit_errors_fail_step_immediately_witness :
    (c2wbctx c2wst.cycle.current = .ok () ∧ c2wplan = .ok (chars ("plan")) ∧
      c2wpersist (chars ("plan")) = .ok () ∧ c2wEdit 1 = .error (.parseFailed .EmptyFiles))
  ∧ DefaultOrchestrator.next c2wst 3 c2wbctx c2wplan c2wpersist c2wEdit c2ciOk
      c2stage c2commit =
      (.error (.stepFailed (.editError (.parseFailed .EmptyFiles) 1)), c2wst) := by
  refine ⟨by decide, ?_⟩
  exact C2_edit_errors_fail_step_immediately.2 c2wst 3 c2wbctx c2wplan c2wpersist
    c2wEdit c2ciOk c2stage c2commit (chars ("plan")) (.parseFailed .EmptyFiles)
    (by decide) (by decide) (by decide) (by decide)

/-- C10: whenever `next()` returns an error — from context assembly,
planning, plan persistence, editing, verification, staging or committing —
the current role and step index are unchanged; they are mutated (cycle
advanced, step index incremented) exactly when `next()` returns success,
which happens only after a commit succeeds. -/
theorem C10_state_mutated_only_after_commit :
    ∀ (st : OrchState) (cfg : Nat) (bctx : Role → Except Str Unit)
      (plan : Except Str Str) (persistPlan : Str → Except Str Unit)
      (edit : Nat → Except AgentError StepResult)
      (ci : Nat → Except RunnerError RunnerOutcomeSummary)
      (stage : Nat → Except Str Unit) (commit : Nat → Except Str Str),
      (∀ e : NextError,
        (DefaultOrchestrator.next st cfg bctx plan persistPlan edit ci stage commit).1
          = .error e →
        (DefaultOrchestrator.next st cfg bctx plan persistPlan edit ci stage commit).2
          = st)
      ∧ ((DefaultOrchestrator.next st cfg bctx plan persistPlan edit ci stage commit).1
          = .ok () →
        (DefaultOrchestrator.next st cfg bctx plan persistPlan edit ci stage commit).2
          = ⟨(st.cycle.advance).2, st.step_index + 1⟩) := by
  intro st cfg bctx plan persistPlan edit ci stage commit
  have key : (∃ e, DefaultOrchestrator.next st cfg bctx plan persistPlan edit ci stage commit
        = (.error e, st)) ∨
      DefaultOrchestrator.next st cfg bctx plan persistPlan edit ci stage commit
        = (.ok (), ⟨(st.cycle.advance).2, st.step_index + 1⟩) := by
    cases h1 : bctx st.cycle.current with
    | error e =>
      exact .inl ⟨.ctxFailed e, by simp only [DefaultOrchestrator.next, h1]⟩
    | ok u =>
      cases h2 : plan with
      | error e =>
        exact .inl ⟨.planFailed e, by simp only [DefaultOrchestrator.next, h1, h2]⟩
      | ok pt =>
        cases h3 : persistPlan pt with
        | error e =>
          exact .inl ⟨.persistFailed e, by simp only [DefaultOrchestrator.next, h1, h2, h3]⟩
        | ok u2 =>
          cases h4 : runAttempts (isTesterRole st.cycle.current)
              (max_attempts_for cfg st.cycle.current) edit ci stage commit
              (max_attempts_for cfg st.cycle.current) 1 with
          | committed r s a =>
            exact .inr (by simp only [DefaultOrchestrator.next, h1, h2, h3, h4])
          | editError e a =>
            exact .inl ⟨.stepFailed (.editError e a),
              by simp only [DefaultOrchestrator.next, h1, h2, h3, h4]⟩
          | gateError e a =>
            exact .inl ⟨.stepFailed (.gateError e a),
              by simp only [DefaultOrchestrator.next, h1, h2, h3, h4]⟩
          | stageError e a =>
            exact .inl ⟨.stepFailed (.stageError e a),
              by simp only [DefaultOrchestrator.next, h1, h2, h3, h4]⟩
          | commitError e a =>
            exact .inl ⟨.stepFailed (.commitError e a),
              by simp only [DefaultOrchestrator.next, h1, h2, h3, h4]⟩
  rcases key with ⟨e0, hEq⟩ | hEq <;> rw [hEq]
  · exact ⟨fun e h => rfl, fun h => by simp at h⟩
  · exact ⟨fun e h => by simp at h, fun h => rfl⟩

/-- State and failing context builder for the C10 witness. -/
def c10st : OrchState := ⟨⟨Role.Implementor⟩, 7⟩

/-- A context builder that fails (e.g. the kata file is unreadable). -/
def c10bctxFail : Role → Except Str Unit := fun _ =>
  .error (chars ("kata file missing"))

/-- Witness for C10: a failed context assembly makes `next()` return an
error and leaves role and step index exactly as they were. -/
theorem C10_state_mutated_only_after_commit_witness :
    (DefaultOrchestrator.next c10st 3 c10bctxFail c2wplan c2wpersist c2wEdit c2ciOk
        c2stage c2commit).1 = .error (.ctxFailed (chars ("kata file missing")))
  ∧ (DefaultOrchestrator.next c10st 3 c10bctxFail c2wplan c2wpersist c2wEdit c2ciOk
        c2stage c2commit).2 = c10st := by
  refine ⟨by decide, ?_⟩
  exact (C10_state_mutated_only_after_commit c10st 3 c10bctxFail c2wplan c2wpersist
    c2wEdit c2ciOk c2stage c2commit).1 (.ctxFailed (chars ("kata file missing")))
    (by decide)

end TddAgent
